import Mathlib

/-!
Shallow embedding of `src/ml-service/src/backtesting/backtest_engine.py`
(`BacktestEngine` and its helpers).  Prices, quantities and capital are
modelled as exact rationals (`ℚ`); timestamps as naturals; a pandas row
(`bar`) as a timestamp plus an association list from symbol to price.
Python dicts keep insertion order, so the position map is an
insertion-ordered association list.  Python `Position` objects are mutated
in place and aliased by `_close_all_positions`' snapshot iteration, so the
model gives each created position a fresh identity tag `pid`; an object
that has been fully closed (and hence deleted from the dict) always has
quantity 0 at that moment, which the snapshot logic reproduces.
-/

namespace NoderrBacktest

/-- Enum `OrderSide` from backtest_engine.py. -/
inductive OrderSide where
  | buy
  | sell
deriving DecidableEq, Repr

/-- Enum `OrderStatus` from backtest_engine.py. -/
inductive OrderStatus where
  | pending
  | filled
  | cancelled
deriving DecidableEq, Repr

/-- The `Order` dataclass. -/
structure Order where
  symbol : String
  side : OrderSide
  quantity : ℚ
  price : ℚ
  timestamp : ℕ
  status : OrderStatus := OrderStatus.pending
  fill_price : Option ℚ := none
  fill_timestamp : Option ℕ := none
deriving DecidableEq, Repr

/-- The `Position` dataclass; `pid` is a model artifact standing for Python
object identity (each `Position(...)` construction gets a fresh tag,
in-place field updates keep it). -/
structure Position where
  pid : ℕ
  symbol : String
  quantity : ℚ
  entry_price : ℚ
  entry_timestamp : ℕ
  current_price : ℚ := 0
  unrealized_pnl : ℚ := 0
deriving DecidableEq, Repr

/-- The `Trade` dataclass. -/
structure Trade where
  symbol : String
  side : OrderSide
  quantity : ℚ
  entry_price : ℚ
  exit_price : ℚ
  entry_timestamp : ℕ
  exit_timestamp : ℕ
  pnl : ℚ
  return_pct : ℚ
  holding_period : ℤ
deriving DecidableEq, Repr

/-- The `BacktestConfig` dataclass (walk-forward window fields omitted: not
used by any claim). -/
structure BacktestConfig where
  initial_capital : ℚ := 100000
  commission_rate : ℚ := 1/1000
  slippage_bps : ℚ := 5
  market_impact_coef : ℚ := 1/10
  max_position_size : ℚ := 1/5
  max_leverage : ℚ := 1
  stop_loss_pct : Option ℚ := none
  take_profit_pct : Option ℚ := none
  execution_delay : ℕ := 1
  use_market_orders : Bool := true
deriving DecidableEq, Repr

/-- One row of the input DataFrame: `name` is the row's timestamp
(`bar.name` / `data.index[i]`), `prices` maps symbols to prices. -/
structure Bar where
  name : ℕ
  prices : List (String × ℚ)
deriving DecidableEq, Repr

/-- Lookup `bar[symbol]` when present (`symbol in bar` tests `isSome`). -/
def Bar.lookup (b : Bar) (s : String) : Option ℚ :=
  (b.prices.find? (fun q => q.1 = s)).map (·.2)

/-- Test `symbol in bar`. -/
def Bar.contains (b : Bar) (s : String) : Bool :=
  (b.lookup s).isSome

/-- Default lookup `bar.get(symbol, 0)`. -/
def Bar.get (b : Bar) (s : String) : ℚ :=
  (b.lookup s).getD 0

/-- The strategy signal dict `{symbol, action, optional quantity}`. -/
structure Signal where
  symbol : String
  action : String
  quantity : Option ℚ := none
deriving DecidableEq, Repr

/-- The engine's mutable state (`self.capital`, `self.positions`, ...).
`nextPid` is the model's fresh-identity counter for positions. -/
structure EngineState where
  capital : ℚ
  positions : List Position
  orders : List Order
  trades : List Trade
  equity_curve : List ℚ
  timestamps : List ℕ
  total_pnl : ℚ
  total_commission : ℚ
  total_slippage : ℚ
  nextPid : ℕ
deriving DecidableEq, Repr

/-- Dict lookup `self.positions[symbol]` (`symbol in self.positions`). -/
def findPos (ps : List Position) (s : String) : Option Position :=
  ps.find? (fun p => p.symbol = s)

/-- In-place update of the position stored under symbol `s`. -/
def setPos (ps : List Position) (s : String) (p : Position) : List Position :=
  ps.map (fun q => if q.symbol = s then p else q)

/-- Deletion `del self.positions[symbol]`. -/
def delPos (ps : List Position) (s : String) : List Position :=
  ps.filter (fun p => p.symbol ≠ s)

/-- Model of `BacktestEngine._update_positions`: mark every position whose symbol
is present in the bar. -/
def updatePositions (bar : Bar) (ps : List Position) : List Position :=
  ps.map fun p =>
    match bar.lookup p.symbol with
    | some price =>
        { p with current_price := price,
                 unrealized_pnl := (price - p.entry_price) * p.quantity }
    | none => p

/-- Fill price with slippage (from `_execute_orders`). -/
def fillPrice (cfg : BacktestConfig) (o : Order) : ℚ :=
  if cfg.use_market_orders then
    let slippage := cfg.slippage_bps / 10000
    match o.side with
    | OrderSide.buy => o.price * (1 + slippage)
    | OrderSide.sell => o.price * (1 - slippage)
  else
    o.price

/-- The body of `_execute_orders`' loop for a single order: returns the
updated state and the (possibly filled) order. -/
def executeOne (cfg : BacktestConfig) (barName : ℕ) (st : EngineState) (o : Order) :
    EngineState × Order :=
  match o.status with
  | OrderStatus.filled => (st, o)
  | OrderStatus.cancelled => (st, o)
  | OrderStatus.pending =>
    let fp := fillPrice cfg o
    let commission := |o.quantity * fp * cfg.commission_rate|
    let o' := { o with fill_price := some fp,
                       fill_timestamp := some barName,
                       status := OrderStatus.filled }
    let st1 := { st with total_commission := st.total_commission + commission,
                         total_slippage := st.total_slippage + |fp - o.price| * |o.quantity| }
    match o.side with
    | OrderSide.buy =>
        let st2 :=
          match findPos st1.positions o.symbol with
          | some pos =>
              let total_quantity := pos.quantity + o.quantity
              let pos' := { pos with
                entry_price :=
                  (pos.entry_price * pos.quantity + fp * o.quantity) / total_quantity,
                quantity := total_quantity }
              { st1 with positions := setPos st1.positions o.symbol pos' }
          | none =>
              { st1 with
                positions := st1.positions ++
                  [({ pid := st1.nextPid, symbol := o.symbol, quantity := o.quantity,
                      entry_price := fp, entry_timestamp := barName,
                      current_price := fp, unrealized_pnl := 0 } : Position)],
                nextPid := st1.nextPid + 1 }
        ({ st2 with capital := st2.capital - (o.quantity * fp + commission) }, o')
    | OrderSide.sell =>
        match findPos st1.positions o.symbol with
        | some pos =>
            let close_quantity := min o.quantity pos.quantity
            let pnl := (fp - pos.entry_price) * close_quantity - commission
            let trade : Trade :=
              { symbol := o.symbol, side := OrderSide.sell, quantity := close_quantity,
                entry_price := pos.entry_price, exit_price := fp,
                entry_timestamp := pos.entry_timestamp, exit_timestamp := barName,
                pnl := pnl,
                return_pct := (fp / pos.entry_price - 1) * 100,
                holding_period := (barName : ℤ) - (pos.entry_timestamp : ℤ) }
            let new_quantity := pos.quantity - close_quantity
            let positions' :=
              if new_quantity ≤ 0 then delPos st1.positions o.symbol
              else setPos st1.positions o.symbol { pos with quantity := new_quantity }
            ({ st1 with trades := st1.trades ++ [trade],
                        total_pnl := st1.total_pnl + pnl,
                        capital := st1.capital + (close_quantity * fp - commission),
                        positions := positions' }, o')
        | none => (st1, o')

/-- Loop `for order in self.orders:` — thread the state left to right,
collecting the updated orders. -/
def execOrdersGo (cfg : BacktestConfig) (barName : ℕ) :
    EngineState → List Order → EngineState × List Order
  | st, [] => (st, [])
  | st, o :: rest =>
      let p := executeOne cfg barName st o
      let q := execOrdersGo cfg barName p.1 rest
      (q.1, p.2 :: q.2)

/-- Model of `BacktestEngine._execute_orders`. -/
def executeOrders (cfg : BacktestConfig) (bar : Bar) (st : EngineState) : EngineState :=
  let p := execOrdersGo cfg bar.name st st.orders
  { p.1 with orders := p.2 }

/-- Model of `BacktestEngine._place_order`. -/
def placeOrder (st : EngineState) (symbol : String) (side : OrderSide)
    (quantity price : ℚ) (timestamp : ℕ) : EngineState :=
  { st with orders := st.orders ++
      [({ symbol := symbol, side := side, quantity := quantity, price := price,
          timestamp := timestamp } : Order)] }

/-- One iteration of `_check_risk_management`'s loop. -/
def riskCheckOne (cfg : BacktestConfig) (bar : Bar) (st : EngineState) (p : Position) :
    EngineState :=
  match bar.lookup p.symbol with
  | none => st
  | some current_price =>
      let return_pct := (current_price / p.entry_price - 1) * 100
      let st1 :=
        match cfg.stop_loss_pct with
        | some sl =>
            if return_pct ≤ -sl then
              placeOrder st p.symbol OrderSide.sell p.quantity current_price bar.name
            else st
        | none => st
      match cfg.take_profit_pct with
      | some tp =>
          if return_pct ≥ tp then
            placeOrder st1 p.symbol OrderSide.sell p.quantity current_price bar.name
          else st1
      | none => st1

/-- Model of `BacktestEngine._check_risk_management`. -/
def checkRiskManagement (cfg : BacktestConfig) (bar : Bar) (st : EngineState) :
    EngineState :=
  if cfg.stop_loss_pct.isNone && cfg.take_profit_pct.isNone then st
  else st.positions.foldl (riskCheckOne cfg bar) st

/-- Model of `BacktestEngine._process_signal`. -/
def processSignal (cfg : BacktestConfig) (sig : Signal) (bar : Bar) (timestamp : ℕ)
    (st : EngineState) : EngineState :=
  if sig.action = "buy" then
    let price := bar.get sig.symbol
    if price = 0 then st
    else
      let max_quantity := st.capital * cfg.max_position_size / price
      let quantity := min (sig.quantity.getD max_quantity) max_quantity
      if 0 < quantity then
        placeOrder st sig.symbol OrderSide.buy quantity price timestamp
      else st
  else if sig.action = "sell" then
    match findPos st.positions sig.symbol with
    | some position =>
        let price := bar.get sig.symbol
        let quantity := sig.quantity.getD position.quantity
        if 0 < quantity then
          placeOrder st sig.symbol OrderSide.sell quantity price timestamp
        else st
    | none => st
  else st

/-- Model of `BacktestEngine._calculate_equity`. -/
def calculateEquity (bar : Bar) (st : EngineState) : ℚ :=
  st.positions.foldl
    (fun e p =>
      match bar.lookup p.symbol with
      | some price => e + p.quantity * price
      | none => e)
    st.capital

/-- Model of `_close_all_positions`' loop over `list(self.positions.items())`:
the snapshot holds object references, so the quantity placed is the
object's current value — the live map value when the same object is still
stored, and 0 when that object has since been fully closed and deleted. -/
def closeAllGo (cfg : BacktestConfig) (bar : Bar) (timestamp : ℕ) :
    EngineState → List Position → EngineState
  | st, [] => st
  | st, p :: rest =>
      if bar.contains p.symbol then
        let qty :=
          match findPos st.positions p.symbol with
          | some q => if q.pid = p.pid then q.quantity else 0
          | none => 0
        let price := bar.get p.symbol
        let st1 := placeOrder st p.symbol OrderSide.sell qty price timestamp
        let st2 := executeOrders cfg bar st1
        closeAllGo cfg bar timestamp st2 rest
      else
        closeAllGo cfg bar timestamp st rest

/-- Model of `BacktestEngine._close_all_positions`. -/
def closeAllPositions (cfg : BacktestConfig) (bar : Bar) (timestamp : ℕ)
    (st : EngineState) : EngineState :=
  closeAllGo cfg bar timestamp st st.positions

/-- A strategy: receives `data.iloc[:i+1]` and returns an optional signal. -/
def Strategy : Type := List Bar → Option Signal

/-- Steps 1–2 of the per-bar sequence: mark positions, then execute all
pending orders. -/
def stAfterExec (cfg : BacktestConfig) (bar : Bar) (st : EngineState) : EngineState :=
  executeOrders cfg bar { st with positions := updatePositions bar st.positions }

/-- One iteration of `run_backtest`'s main loop (bar index `i`). -/
def processBar (cfg : BacktestConfig) (strat : Strategy) (data : List Bar)
    (st : EngineState) (i : ℕ) : EngineState :=
  match data[i]? with
  | none => st
  | some bar =>
      let timestamp := bar.name
      let st1 := { st with positions := updatePositions bar st.positions }
      let st2 := executeOrders cfg bar st1
      let st3 := checkRiskManagement cfg bar st2
      let st4 :=
        if cfg.execution_delay ≤ i then
          match strat (data.take (i + 1)) with
          | some sig => processSignal cfg sig bar timestamp st3
          | none => st3
        else st3
      let equity := calculateEquity bar st4
      { st4 with equity_curve := st4.equity_curve ++ [equity],
                 timestamps := st4.timestamps ++ [timestamp] }

/-- Model of `BacktestEngine._reset` / `__init__` state. -/
def initState (cfg : BacktestConfig) : EngineState :=
  { capital := cfg.initial_capital, positions := [], orders := [], trades := [],
    equity_curve := [cfg.initial_capital], timestamps := [],
    total_pnl := 0, total_commission := 0, total_slippage := 0, nextPid := 0 }

/-- Engine state after the first `k` iterations of `run_backtest`'s loop. -/
def stateAfterBars (cfg : BacktestConfig) (strat : Strategy) (data : List Bar)
    (k : ℕ) : EngineState :=
  (List.range k).foldl (processBar cfg strat data) (initState cfg)

/-- Engine state at the end of `run_backtest` (after the loop and the
terminal `_close_all_positions`; on empty data Python would raise on
`data.iloc[-1]`, modelled as no terminal step). -/
def finalState (cfg : BacktestConfig) (strat : Strategy) (data : List Bar) :
    EngineState :=
  let st := stateAfterBars cfg strat data data.length
  match data.getLast? with
  | some finalBar => closeAllPositions cfg finalBar finalBar.name st
  | none => st

/-- Model of `returns = np.diff(equity_curve) / equity_curve[:-1]`. -/
def barReturns (equity : List ℚ) : List ℚ :=
  (equity.zip equity.tail).map (fun p => (p.2 - p.1) / p.1)

/-- Model of `np.mean` (on a nonempty list of exactly-representable values). -/
def npMean (xs : List ℚ) : ℚ :=
  xs.sum / (xs.length : ℚ)

/-- Population variance, `np.std(xs) ** 2`. -/
def npVar (xs : List ℚ) : ℚ :=
  npMean (xs.map fun x => (x - npMean xs) ^ 2)

/-- Abstraction of the float expression
`np.mean(returns) / np.std(returns) * np.sqrt(252) if len(returns) > 0 else 0`
from `_calculate_metrics`: tracks only whether the IEEE result is a finite
number.  `np.std` is the square root of `npVar` and is zero exactly when
`npVar` is zero; dividing a finite mean by a zero std yields NaN or ±inf,
and multiplying by √252 preserves non-finiteness, so the computed Sharpe
ratio is finite iff the returns list is empty (the `else 0` branch) or its
variance is nonzero. -/
def sharpeIsFinite (equity : List ℚ) : Bool :=
  let r := barReturns equity
  if 0 < r.length then decide (npVar r ≠ 0) else true

/-- What `_execute_orders` does to the order object itself: a pending
order is stamped with fill price, fill timestamp and `FILLED`; any other
order is left untouched.  (The updated order does not depend on the
engine state.) -/
def fillOrder (cfg : BacktestConfig) (barName : ℕ) (o : Order) : Order :=
  match o.status with
  | OrderStatus.filled => o
  | OrderStatus.cancelled => o
  | OrderStatus.pending =>
      { o with fill_price := some (fillPrice cfg o),
               fill_timestamp := some barName,
               status := OrderStatus.filled }

/-- A filled order was stamped strictly after its placement bar. -/
def OrdStrict (o : Order) : Prop :=
  ∃ t, o.fill_timestamp = some t ∧ o.timestamp < t

/-- Mid-loop order bookkeeping: every order is either filled strictly
after its placement bar, or pending and placed before the given bar. -/
def PendBefore (os : List Order) (cur : ℕ) : Prop :=
  ∀ o ∈ os, (o.status = OrderStatus.filled ∧ OrdStrict o) ∨
            (o.status = OrderStatus.pending ∧ o.timestamp < cur)

/-- End-of-bar order bookkeeping: every order is either filled strictly
after its placement bar, or pending and placed at the bar just processed. -/
def LoopInv (os : List Order) (cur : ℕ) : Prop :=
  ∀ o ∈ os, (o.status = OrderStatus.filled ∧ OrdStrict o) ∨
            (o.status = OrderStatus.pending ∧ o.timestamp = cur)

/-- Order bookkeeping during the terminal close-all step: fills are
strictly after placement except possibly at the final bar's timestamp. -/
def CloseInv (os : List Order) (last : ℕ) : Prop :=
  ∀ o ∈ os,
    (o.status = OrderStatus.filled ∧
       ∃ t, o.fill_timestamp = some t ∧
         (o.timestamp < t ∨ (o.timestamp = t ∧ t = last))) ∨
    (o.status = OrderStatus.pending ∧ o.timestamp = last)

/-- Every stored position has strictly positive quantity. -/
def PosPos (ps : List Position) : Prop :=
  ∀ p ∈ ps, 0 < p.quantity

/-- Every pending Buy order has strictly positive quantity. -/
def OrdBuyPos (os : List Order) : Prop :=
  ∀ o ∈ os, o.status = OrderStatus.pending → o.side = OrderSide.buy →
    0 < o.quantity

/- Concrete fixtures used by counterexamples and witnesses. -/

/-- Run A: buy "X" queued at bar 1, filled at bar 2, whose price row no
longer contains "X".  (No slippage for round numbers.) -/
def c1cfg : BacktestConfig := { slippage_bps := 0, execution_delay := 1 }

/-- Run A strategy: a single buy signal at the bar where two bars of
history are visible. -/
def c1strat : Strategy := fun h =>
  if h.length = 2 then some { symbol := "X", action := "buy" } else none

/-- Run A data: "X" quoted at bars 0 and 1, absent from bar 2. -/
def c1data : List Bar := [⟨0, [("X", 100)]⟩, ⟨1, [("X", 100)]⟩, ⟨2, []⟩]

/-- Run B: buy signals on every bar with no execution delay, so a buy
order is still pending when the terminal close-all step runs. -/
def c2cfg : BacktestConfig := { slippage_bps := 0, execution_delay := 0 }

/-- Run B strategy: always buy "X". -/
def c2strat : Strategy := fun _ => some { symbol := "X", action := "buy" }

/-- Run B data: two bars quoting "X". -/
def c2data : List Bar := [⟨0, [("X", 100)]⟩, ⟨1, [("X", 100)]⟩]

/-- Run C: a single bar and no signals, so the equity curve has exactly
one return sample. -/
def c7cfg : BacktestConfig := {}

/-- Run C strategy: never signals. -/
def c7strat : Strategy := fun _ => none

/-- Run C data: one bar. -/
def c7data : List Bar := [⟨0, [("X", 100)]⟩]

/-- Default configuration fixture. -/
def c8cfg : BacktestConfig := {}

/-- A fresh engine with one pending Sell order for a symbol that has no
open position. -/
def c8st : EngineState := placeOrder (initState c8cfg) "X" OrderSide.sell 200 100 0

/-- Run D: full-capital position sizing (`max_position_size = 1`), so the
default 5 bps slippage plus commission push the buy's cost above the
capital it was sized from. -/
def c10cfg : BacktestConfig := { max_position_size := 1, execution_delay := 0 }

/-- Run D strategy: always buy "X". -/
def c10strat : Strategy := fun _ => some { symbol := "X", action := "buy" }

/-- Run D data: two bars quoting "X". -/
def c10data : List Bar := [⟨0, [("X", 100)]⟩, ⟨1, [("X", 100)]⟩]

/-- Witness order: first buy, 1 unit of "X" at requested price 100. -/
def w5o1 : Order :=
  { symbol := "X", side := OrderSide.buy, quantity := 1, price := 100, timestamp := 0 }

/-- Witness order: second buy, 3 units of "X" at requested price 200. -/
def w5o2 : Order :=
  { symbol := "X", side := OrderSide.buy, quantity := 3, price := 200, timestamp := 1 }

/-- Witness position: 5 units of "X" entered at 100 on bar 3. -/
def w6pos : Position :=
  { pid := 0, symbol := "X", quantity := 5, entry_price := 100, entry_timestamp := 3,
    current_price := 100 }

/-- Witness state holding `w6pos`. -/
def w6st : EngineState :=
  { capital := 1000, positions := [w6pos], orders := [], trades := [],
    equity_curve := [1000], timestamps := [], total_pnl := 0,
    total_commission := 0, total_slippage := 0, nextPid := 1 }

/-- Witness order: a Sell fully closing `w6pos` at requested price 110. -/
def w6o : Order :=
  { symbol := "X", side := OrderSide.sell, quantity := 5, price := 110, timestamp := 4 }

/-- Witness order: a Sell for a symbol with no open position. -/
def w8o : Order :=
  { symbol := "Y", side := OrderSide.sell, quantity := 2, price := 50, timestamp := 0 }

/-- Witness position for the missing-price sell scenario. -/
def w9pos : Position :=
  { pid := 0, symbol := "X", quantity := 7, entry_price := 100, entry_timestamp := 2,
    current_price := 100 }

/-- Witness state holding `w9pos`. -/
def w9st : EngineState :=
  { capital := 500, positions := [w9pos], orders := [], trades := [],
    equity_curve := [500], timestamps := [], total_pnl := 0,
    total_commission := 0, total_slippage := 0, nextPid := 1 }

/-- Witness signal: sell "X" with no explicit quantity. -/
def w9sig : Signal := { symbol := "X", action := "sell" }

/-- Witness bar whose price row does not contain "X". -/
def w9bar : Bar := ⟨5, [("Y", 10)]⟩

/-- Witness order: the Sell the signal interpreter queues for `w9sig`
when "X" has no bar price (requested price 0). -/
def w9o : Order :=
  { symbol := "X", side := OrderSide.sell, quantity := 7, price := 0, timestamp := 5 }

/-- Witness order: a pending Buy of 10 units at requested price 100. -/
def w10o : Order :=
  { symbol := "X", side := OrderSide.buy, quantity := 10, price := 100, timestamp := 0 }

/-- The position open after bar 2 of run A. -/
def c4pos : Position :=
  { pid := 0, symbol := "X", quantity := 200, entry_price := 100,
    entry_timestamp := 2, current_price := 100, unrealized_pnl := 0 }

/-- The single pending order held by `c8st`. -/
def w3o : Order :=
  { symbol := "X", side := OrderSide.sell, quantity := 200, price := 100, timestamp := 0 }

/- ------------------------------------------------------------------ -/
/- Helper lemmas.                                                      -/
/- ------------------------------------------------------------------ -/

theorem executeOne_snd (cfg : BacktestConfig) (barName : ℕ) (st : EngineState)
    (o : Order) : (executeOne cfg barName st o).2 = fillOrder cfg barName o := by
  cases h : o.status <;>
    simp only [executeOne, fillOrder, h] <;>
    (try (cases hs : o.side <;>
      cases hf : findPos st.positions o.symbol <;>
        simp only [hs, hf]))

theorem executeOne_fst_orders (cfg : BacktestConfig) (barName : ℕ)
    (st : EngineState) (o : Order) :
    (executeOne cfg barName st o).1.orders = st.orders := by
  cases h : o.status <;>
    simp only [executeOne, h] <;>
    (try (cases hs : o.side <;>
      cases hf : findPos st.positions o.symbol <;>
        simp only [hs, hf]))

theorem execOrdersGo_snd (cfg : BacktestConfig) (barName : ℕ) :
    ∀ (os : List Order) (st : EngineState),
      (execOrdersGo cfg barName st os).2 = os.map (fillOrder cfg barName)
  | [], _ => rfl
  | o :: rest, st => by
      simp only [execOrdersGo, List.map_cons, executeOne_snd,
        execOrdersGo_snd cfg barName rest]

theorem executeOrders_orders (cfg : BacktestConfig) (bar : Bar) (st : EngineState) :
    (executeOrders cfg bar st).orders = st.orders.map (fillOrder cfg bar.name) := by
  simp only [executeOrders, execOrdersGo_snd]

theorem fillOrder_not_pending (cfg : BacktestConfig) (barName : ℕ) (o : Order) :
    (fillOrder cfg barName o).status ≠ OrderStatus.pending := by
  cases h : o.status <;> simp [fillOrder, h]

theorem fillOrder_of_pending (cfg : BacktestConfig) (barName : ℕ) (o : Order)
    (h : o.status = OrderStatus.pending) :
    fillOrder cfg barName o =
      { o with fill_price := some (fillPrice cfg o),
               fill_timestamp := some barName,
               status := OrderStatus.filled } := by
  simp only [fillOrder, h]

theorem findPos_eq_none_iff (ps : List Position) (s : String) :
    findPos ps s = none ↔ ∀ p ∈ ps, p.symbol ≠ s := by
  simp [findPos, List.find?_eq_none]

theorem findPos_delPos (ps : List Position) (s : String) :
    findPos (delPos ps s) s = none := by
  rw [findPos_eq_none_iff]
  intro p hp
  have := List.of_mem_filter hp
  simpa using this

theorem findPos_append_self (ps : List Position) (p : Position) (s : String)
    (hnone : findPos ps s = none) (hs : p.symbol = s) :
    findPos (ps ++ [p]) s = some p := by
  unfold findPos at *
  rw [List.find?_append, hnone]
  simp [List.find?_cons, hs]

theorem findPos_setPos (ps : List Position) (s : String) (p' : Position)
    (q : Position) (hq : findPos ps s = some q) (hs : p'.symbol = s) :
    findPos (setPos ps s p') s = some p' := by
  induction ps with
  | nil => simp [findPos] at hq
  | cons a rest ih =>
      by_cases ha : a.symbol = s
      · simp [findPos, setPos, List.find?_cons, ha, hs]
      · simp only [findPos, List.find?_cons_of_neg, setPos, List.map_cons] at hq ⊢
        rw [if_neg ha]
        have hq' : findPos rest s = some q := by
          simpa [findPos, List.find?_cons, ha] using hq
        have := ih hq'
        simpa [findPos, setPos, List.find?_cons, ha] using this

theorem executeOne_fst_frame (cfg : BacktestConfig) (barName : ℕ) (st : EngineState)
    (o : Order) :
    (executeOne cfg barName st o).1.equity_curve = st.equity_curve ∧
    (executeOne cfg barName st o).1.timestamps = st.timestamps := by
  cases h : o.status <;>
    simp only [executeOne, h] <;>
    (try (cases hs : o.side <;>
      cases hf : findPos st.positions o.symbol <;>
        simp only [hs, hf])) <;>
    (try simp)

theorem execOrdersGo_fst_frame (cfg : BacktestConfig) (barName : ℕ) :
    ∀ (os : List Order) (st : EngineState),
      (execOrdersGo cfg barName st os).1.equity_curve = st.equity_curve ∧
      (execOrdersGo cfg barName st os).1.timestamps = st.timestamps ∧
      (execOrdersGo cfg barName st os).1.orders = st.orders
  | [], _ => ⟨rfl, rfl, rfl⟩
  | o :: rest, st => by
      obtain ⟨e1, t1⟩ := executeOne_fst_frame cfg barName st o
      obtain ⟨e2, t2, or2⟩ :=
        execOrdersGo_fst_frame cfg barName rest (executeOne cfg barName st o).1
      exact ⟨e2.trans e1, t2.trans t1,
        or2.trans (executeOne_fst_orders cfg barName st o)⟩

theorem stAfterExec_equity (cfg : BacktestConfig) (bar : Bar) (st : EngineState) :
    (stAfterExec cfg bar st).equity_curve = st.equity_curve :=
  (execOrdersGo_fst_frame cfg bar.name _ _).1

theorem stAfterExec_timestamps (cfg : BacktestConfig) (bar : Bar) (st : EngineState) :
    (stAfterExec cfg bar st).timestamps = st.timestamps :=
  (execOrdersGo_fst_frame cfg bar.name _ _).2.1

theorem stAfterExec_orders (cfg : BacktestConfig) (bar : Bar) (st : EngineState) :
    (stAfterExec cfg bar st).orders = st.orders.map (fillOrder cfg bar.name) :=
  executeOrders_orders cfg bar _

theorem stAfterExec_def (cfg : BacktestConfig) (bar : Bar) (st : EngineState) :
    executeOrders cfg bar { st with positions := updatePositions bar st.positions } =
      stAfterExec cfg bar st := rfl

theorem calculateEquity_orders (bar : Bar) (st : EngineState) (x : List Order) :
    calculateEquity bar { st with orders := x } = calculateEquity bar st := rfl

theorem foldl_equity (bar : Bar) :
    ∀ (ps : List Position) (c : ℚ),
      ps.foldl
        (fun e p =>
          match Bar.lookup bar p.symbol with
          | some price => e + p.quantity * price
          | none => e) c =
      c + (ps.map
        (fun p =>
          match Bar.lookup bar p.symbol with
          | some price => p.quantity * price
          | none => 0)).sum
  | [], c => by simp
  | p :: rest, c => by
      cases hl : Bar.lookup bar p.symbol <;>
        simp [hl, foldl_equity bar rest, add_assoc]

theorem calculateEquity_eq_sum (bar : Bar) (st : EngineState) :
    calculateEquity bar st = st.capital +
      (st.positions.map
        (fun p =>
          match Bar.lookup bar p.symbol with
          | some price => p.quantity * price
          | none => 0)).sum :=
  foldl_equity bar st.positions st.capital

theorem riskCheckOne_shape (cfg : BacktestConfig) (bar : Bar) (st : EngineState)
    (p : Position) :
    ∃ os, riskCheckOne cfg bar st p = { st with orders := st.orders ++ os } ∧
      ∀ o ∈ os, o.status = OrderStatus.pending ∧ o.side = OrderSide.sell ∧
        o.timestamp = bar.name ∧ o.quantity = p.quantity ∧
        bar.contains o.symbol = true := by
  cases hl : Bar.lookup bar p.symbol
  · exact ⟨[], by simp [riskCheckOne, hl], by simp⟩
  case some price =>
    have hcon : bar.contains p.symbol = true := by
      simp [Bar.contains, hl]
    cases hsl : cfg.stop_loss_pct <;> cases htp : cfg.take_profit_pct <;>
      simp only [riskCheckOne, hl, hsl, htp]
    · exact ⟨[], by simp, by simp⟩
    · split
      · exact ⟨_, rfl, by simp [placeOrder, hcon]⟩
      · exact ⟨[], by simp, by simp⟩
    · split
      · exact ⟨_, rfl, by simp [placeOrder, hcon]⟩
      · exact ⟨[], by simp, by simp⟩
    · split <;> split
      · refine ⟨[({ symbol := p.symbol, side := OrderSide.sell, quantity := p.quantity,
                    price := price, timestamp := bar.name } : Order),
                 ({ symbol := p.symbol, side := OrderSide.sell, quantity := p.quantity,
                    price := price, timestamp := bar.name } : Order)], ?_, ?_⟩
        · simp [placeOrder]
        · simp [hcon]
      · exact ⟨_, rfl, by simp [placeOrder, hcon]⟩
      · exact ⟨_, rfl, by simp [placeOrder, hcon]⟩
      · exact ⟨[], by simp, by simp⟩

theorem foldlRisk_shape (cfg : BacktestConfig) (bar : Bar) :
    ∀ (ps : List Position) (st : EngineState),
      ∃ os, ps.foldl (riskCheckOne cfg bar) st = { st with orders := st.orders ++ os } ∧
        ∀ o ∈ os, o.status = OrderStatus.pending ∧ o.side = OrderSide.sell ∧
          o.timestamp = bar.name ∧ (∃ p ∈ ps, o.quantity = p.quantity) ∧
          bar.contains o.symbol = true
  | [], st => ⟨[], by simp, by simp⟩
  | p :: rest, st => by
      obtain ⟨os1, h1, hp1⟩ := riskCheckOne_shape cfg bar st p
      obtain ⟨os2, h2, hp2⟩ :=
        foldlRisk_shape cfg bar rest { st with orders := st.orders ++ os1 }
      refine ⟨os1 ++ os2, ?_, ?_⟩
      · rw [List.foldl_cons, h1, h2]
        simp
      · intro o ho
        rcases List.mem_append.1 ho with h | h
        · obtain ⟨ha, hb, hc, hd, he⟩ := hp1 o h
          exact ⟨ha, hb, hc, ⟨p, by simp, hd⟩, he⟩
        · obtain ⟨ha, hb, hc, ⟨q, hq, hd⟩, he⟩ := hp2 o h
          exact ⟨ha, hb, hc, ⟨q, by simp [hq], hd⟩, he⟩

theorem checkRisk_shape (cfg : BacktestConfig) (bar : Bar) (st : EngineState) :
    ∃ os, checkRiskManagement cfg bar st = { st with orders := st.orders ++ os } ∧
      ∀ o ∈ os, o.status = OrderStatus.pending ∧ o.side = OrderSide.sell ∧
        o.timestamp = bar.name ∧ (∃ p ∈ st.positions, o.quantity = p.quantity) ∧
        bar.contains o.symbol = true := by
  unfold checkRiskManagement
  split
  · exact ⟨[], by simp, by simp⟩
  · exact foldlRisk_shape cfg bar st.positions st

theorem processSignal_shape (cfg : BacktestConfig) (sig : Signal) (bar : Bar)
    (ts : ℕ) (st : EngineState) :
    ∃ os, processSignal cfg sig bar ts st = { st with orders := st.orders ++ os } ∧
      ∀ o ∈ os, o.status = OrderStatus.pending ∧ o.timestamp = ts ∧
        (o.side = OrderSide.buy → 0 < o.quantity) := by
  by_cases hb : sig.action = "buy"
  · simp only [processSignal, hb, ite_true, ite_false]
    split
    · exact ⟨[], by simp, by simp⟩
    · split
      next h => exact ⟨_, rfl, by simp [placeOrder, h]⟩
      next h => exact ⟨[], by simp, by simp⟩
  · by_cases hs : sig.action = "sell"
    · simp only [processSignal, hb, ite_false]
      simp only [hs, ite_true]
      split
      next pos hpos =>
        split
        next h => exact ⟨_, rfl, by simp [placeOrder]⟩
        next h => exact ⟨[], by simp, by simp⟩
      next => exact ⟨[], by simp, by simp⟩
    · simp only [processSignal, hb, hs, ite_false]
      exact ⟨[], by simp, by simp⟩

theorem processBar_none (cfg : BacktestConfig) (strat : Strategy) (data : List Bar)
    (st : EngineState) (i : ℕ) (h : data[i]? = none) :
    processBar cfg strat data st i = st := by
  simp [processBar, h]

theorem processBar_some (cfg : BacktestConfig) (strat : Strategy) (data : List Bar)
    (st : EngineState) (i : ℕ) (bar : Bar) (hbar : data[i]? = some bar) :
    ∃ os : List Order,
      (∀ o ∈ os, o.status = OrderStatus.pending ∧ o.timestamp = bar.name ∧
        (o.side = OrderSide.buy → 0 < o.quantity)) ∧
      processBar cfg strat data st i =
        { stAfterExec cfg bar st with
            orders := (stAfterExec cfg bar st).orders ++ os,
            equity_curve := st.equity_curve ++
              [calculateEquity bar (stAfterExec cfg bar st)],
            timestamps := st.timestamps ++ [bar.name] } := by
  obtain ⟨os1, h1, hp1⟩ := checkRisk_shape cfg bar (stAfterExec cfg bar st)
  have hos1 : ∀ o ∈ os1, o.status = OrderStatus.pending ∧ o.timestamp = bar.name ∧
      (o.side = OrderSide.buy → 0 < o.quantity) := by
    intro o ho
    obtain ⟨ha, hb', hc, _, _⟩ := hp1 o ho
    exact ⟨ha, hc, fun hbuy => absurd (hb'.symm.trans hbuy) (by simp)⟩
  simp only [processBar, hbar, stAfterExec_def]
  by_cases hd : cfg.execution_delay ≤ i
  · rw [if_pos hd]
    cases hsig : strat (data.take (i + 1)) with
    | none =>
        refine ⟨os1, hos1, ?_⟩
        simp only [h1]
        simp [stAfterExec_equity, stAfterExec_timestamps]
        rfl
    | some sig =>
        obtain ⟨os2, h2, hp2⟩ := processSignal_shape cfg sig bar bar.name
          (checkRiskManagement cfg bar (stAfterExec cfg bar st))
        refine ⟨os1 ++ os2, ?_, ?_⟩
        · intro o ho
          rcases List.mem_append.1 ho with h | h
          · exact hos1 o h
          · exact hp2 o h
        · simp only [h2]
          simp only [h1]
          simp [stAfterExec_equity, stAfterExec_timestamps]
          rfl
  · rw [if_neg hd]
    refine ⟨os1, hos1, ?_⟩
    simp only [h1]
    simp [stAfterExec_equity, stAfterExec_timestamps]
    rfl

theorem stateAfterBars_zero (cfg : BacktestConfig) (strat : Strategy) (data : List Bar) :
    stateAfterBars cfg strat data 0 = initState cfg := rfl

theorem stateAfterBars_succ (cfg : BacktestConfig) (strat : Strategy) (data : List Bar)
    (k : ℕ) :
    stateAfterBars cfg strat data (k + 1) =
      processBar cfg strat data (stateAfterBars cfg strat data k) k := by
  unfold stateAfterBars
  rw [List.range_succ, List.foldl_append]
  rfl

theorem fillOrder_of_filled (cfg : BacktestConfig) (barName : ℕ) (o : Order)
    (h : o.status = OrderStatus.filled) : fillOrder cfg barName o = o := by
  simp [fillOrder, h]

theorem loopInv_exec (cfg : BacktestConfig) (barName : ℕ) (os : List Order)
    (h : ∀ o ∈ os, (o.status = OrderStatus.filled ∧ OrdStrict o) ∨
         (o.status = OrderStatus.pending ∧ o.timestamp < barName)) :
    ∀ o' ∈ os.map (fillOrder cfg barName),
      o'.status = OrderStatus.filled ∧ OrdStrict o' := by
  intro o' ho'
  obtain ⟨o, ho, rfl⟩ := List.mem_map.1 ho'
  rcases h o ho with ⟨hf, t, hft, hlt⟩ | ⟨hp, hlt⟩
  · rw [fillOrder_of_filled cfg barName o hf]
    exact ⟨hf, t, hft, hlt⟩
  · rw [fillOrder_of_pending cfg barName o hp]
    exact ⟨rfl, barName, rfl, hlt⟩

theorem loopInv_state (cfg : BacktestConfig) (strat : Strategy) (data : List Bar)
    (hmono : data.Pairwise (fun a b => a.name < b.name)) :
    ∀ k (bar : Bar), data[k]? = some bar →
      LoopInv (stateAfterBars cfg strat data (k + 1)).orders bar.name := by
  intro k
  induction k with
  | zero =>
      intro bar hbar
      obtain ⟨os, hos, heq⟩ := processBar_some cfg strat data (initState cfg) 0 bar hbar
      rw [stateAfterBars_succ, stateAfterBars_zero, heq]
      intro o ho
      have ho' : o ∈ (stAfterExec cfg bar (initState cfg)).orders ++ os := ho
      rw [stAfterExec_orders] at ho'
      rcases List.mem_append.1 ho' with h | h
      · simp [initState] at h
      · obtain ⟨ha, hb, _⟩ := hos o h
        exact Or.inr ⟨ha, hb⟩
  | succ n ih =>
      intro bar hbar
      have hn1 : n + 1 < data.length := by
        by_contra h
        rw [List.getElem?_eq_none (le_of_not_lt h)] at hbar
        exact Option.noConfusion hbar
      have hn : n < data.length := by omega
      obtain ⟨prevBar, hprev⟩ : ∃ pb, data[n]? = some pb :=
        ⟨data.get ⟨n, hn⟩, List.getElem?_eq_getElem hn⟩
      have hlt : prevBar.name < bar.name := by
        have hpair := List.pairwise_iff_get.1 hmono ⟨n, hn⟩ ⟨n + 1, hn1⟩
          (by simp)
        have e1 : data.get ⟨n, hn⟩ = prevBar := by
          have := List.getElem?_eq_getElem hn
          rw [hprev] at this
          simpa [List.get_eq_getElem] using (Option.some.inj this).symm
        have e2 : data.get ⟨n + 1, hn1⟩ = bar := by
          have := List.getElem?_eq_getElem hn1
          rw [hbar] at this
          simpa [List.get_eq_getElem] using (Option.some.inj this).symm
        rw [e1, e2] at hpair
        exact hpair
      have hInv := ih prevBar hprev
      obtain ⟨os, hos, heq⟩ := processBar_some cfg strat data
        (stateAfterBars cfg strat data (n + 1)) (n + 1) bar hbar
      rw [stateAfterBars_succ, heq]
      intro o ho
      have ho' : o ∈ (stAfterExec cfg bar (stateAfterBars cfg strat data (n + 1))).orders
          ++ os := ho
      rw [stAfterExec_orders] at ho'
      rcases List.mem_append.1 ho' with h | h
      · refine Or.inl (loopInv_exec cfg bar.name _ ?_ o h)
        intro o2 ho2
        rcases hInv o2 ho2 with ⟨hf, hstrict⟩ | ⟨hp, hts⟩
        · exact Or.inl ⟨hf, hstrict⟩
        · exact Or.inr ⟨hp, by rw [hts]; exact hlt⟩
      · obtain ⟨ha, hb, _⟩ := hos o h
        exact Or.inr ⟨ha, hb⟩

theorem closeInv_of_loopInv (os : List Order) (last : ℕ) (h : LoopInv os last) :
    CloseInv os last := by
  intro o ho
  rcases h o ho with ⟨hf, t, hft, hlt⟩ | hp
  · exact Or.inl ⟨hf, t, hft, Or.inl hlt⟩
  · exact Or.inr hp

theorem closeInv_exec (cfg : BacktestConfig) (bar : Bar) (st : EngineState)
    (h : CloseInv st.orders bar.name) :
    CloseInv (executeOrders cfg bar st).orders bar.name := by
  intro o' ho'
  rw [executeOrders_orders] at ho'
  obtain ⟨o, ho, rfl⟩ := List.mem_map.1 ho'
  rcases h o ho with ⟨hf, t, hft, hd⟩ | ⟨hp, hts⟩
  · rw [fillOrder_of_filled cfg bar.name o hf]
    exact Or.inl ⟨hf, t, hft, hd⟩
  · rw [fillOrder_of_pending cfg bar.name o hp]
    exact Or.inl ⟨rfl, bar.name, rfl, Or.inr ⟨hts, rfl⟩⟩

theorem closeAllGo_closeInv (cfg : BacktestConfig) (bar : Bar) :
    ∀ (snap : List Position) (st : EngineState),
      CloseInv st.orders bar.name →
      CloseInv (closeAllGo cfg bar bar.name st snap).orders bar.name
  | [], _ => fun h => h
  | p :: rest, st => by
      intro h
      simp only [closeAllGo]
      split
      · apply closeAllGo_closeInv cfg bar rest
        apply closeInv_exec
        intro o ho
        rcases List.mem_append.1 ho with hmem | hmem
        · exact h o hmem
        · rw [List.mem_singleton] at hmem
          subst hmem
          exact Or.inr ⟨rfl, rfl⟩
      · exact closeAllGo_closeInv cfg bar rest st h

theorem setPos_mem (ps : List Position) (s : String) (p' : Position) :
    ∀ q ∈ setPos ps s p', q = p' ∨ q ∈ ps := by
  intro q hq
  obtain ⟨a, ha, hq⟩ := List.mem_map.1 hq
  by_cases h : a.symbol = s
  · rw [if_pos h] at hq
    exact Or.inl hq.symm
  · rw [if_neg h] at hq
    exact Or.inr (hq ▸ ha)

theorem delPos_subset (ps : List Position) (s : String) :
    ∀ q ∈ delPos ps s, q ∈ ps :=
  fun q hq => List.mem_of_mem_filter hq

theorem updatePositions_posPos (bar : Bar) (ps : List Position) (h : PosPos ps) :
    PosPos (updatePositions bar ps) := by
  intro q hq
  obtain ⟨p, hp, hq⟩ := List.mem_map.1 hq
  have hpq := h p hp
  subst hq
  cases hl : Bar.lookup bar p.symbol <;> simp [hl] <;> exact hpq

theorem executeOne_posPos (cfg : BacktestConfig) (barName : ℕ) (st : EngineState)
    (o : Order) (hpos : PosPos st.positions)
    (ho : o.status = OrderStatus.pending → o.side = OrderSide.buy → 0 < o.quantity) :
    PosPos (executeOne cfg barName st o).1.positions := by
  cases hst : o.status
  case filled => simpa [executeOne, hst] using hpos
  case cancelled => simpa [executeOne, hst] using hpos
  case pending =>
    cases hside : o.side
    case buy =>
      cases hf : findPos st.positions o.symbol
      case none =>
        simp only [executeOne, hst, hside, hf]
        intro q hq
        rcases List.mem_append.1 hq with h | h
        · exact hpos q h
        · rw [List.mem_singleton] at h
          subst h
          exact ho hst hside
      case some pos =>
        simp only [executeOne, hst, hside, hf]
        intro q hq
        rcases setPos_mem _ _ _ q hq with rfl | h
        · have h1 : 0 < pos.quantity := hpos pos (List.mem_of_find?_eq_some hf)
          have h2 : 0 < o.quantity := ho hst hside
          show 0 < pos.quantity + o.quantity
          linarith
        · exact hpos q h
    case sell =>
      cases hf : findPos st.positions o.symbol
      case none => simpa [executeOne, hst, hside, hf] using hpos
      case some pos =>
        simp only [executeOne, hst, hside, hf]
        split
        · intro q hq
          exact hpos q (delPos_subset _ _ q hq)
        next h =>
          intro q hq
          rcases setPos_mem _ _ _ q hq with rfl | hmem
          · show 0 < pos.quantity - min o.quantity pos.quantity
            exact lt_of_not_le h
          · exact hpos q hmem

theorem execOrdersGo_posPos (cfg : BacktestConfig) (barName : ℕ) :
    ∀ (os : List Order) (st : EngineState),
      PosPos st.positions →
      (∀ o ∈ os, o.status = OrderStatus.pending → o.side = OrderSide.buy →
        0 < o.quantity) →
      PosPos (execOrdersGo cfg barName st os).1.positions
  | [], _ => fun h _ => h
  | o :: rest, st => by
      intro hpos hos
      simp only [execOrdersGo]
      exact execOrdersGo_posPos cfg barName rest (executeOne cfg barName st o).1
        (executeOne_posPos cfg barName st o hpos (hos o (by simp)))
        (fun o2 ho2 => hos o2 (by simp [ho2]))

theorem executeOrders_posPos (cfg : BacktestConfig) (bar : Bar) (st : EngineState)
    (hpos : PosPos st.positions) (hord : OrdBuyPos st.orders) :
    PosPos (executeOrders cfg bar st).positions :=
  execOrdersGo_posPos cfg bar.name st.orders st hpos hord

theorem executeOrders_ordBuyPos (cfg : BacktestConfig) (bar : Bar) (st : EngineState) :
    OrdBuyPos (executeOrders cfg bar st).orders := by
  intro o ho hp _
  rw [executeOrders_orders] at ho
  obtain ⟨a, _, rfl⟩ := List.mem_map.1 ho
  exact absurd hp (fillOrder_not_pending cfg bar.name a)

theorem processBar_posInv (cfg : BacktestConfig) (strat : Strategy) (data : List Bar)
    (st : EngineState) (i : ℕ)
    (hpos : PosPos st.positions) (hord : OrdBuyPos st.orders) :
    PosPos (processBar cfg strat data st i).positions ∧
    OrdBuyPos (processBar cfg strat data st i).orders := by
  cases hbar : data[i]? with
  | none =>
      rw [processBar_none cfg strat data st i hbar]
      exact ⟨hpos, hord⟩
  | some bar =>
      obtain ⟨os, hos, heq⟩ := processBar_some cfg strat data st i bar hbar
      rw [heq]
      constructor
      · show PosPos (stAfterExec cfg bar st).positions
        exact executeOrders_posPos cfg bar _
          (updatePositions_posPos bar st.positions hpos) hord
      · intro o ho hp hb
        have ho' : o ∈ (stAfterExec cfg bar st).orders ++ os := ho
        rcases List.mem_append.1 ho' with h | h
        · exact executeOrders_ordBuyPos cfg bar _ o h hp hb
        · exact (hos o h).2.2 hb

theorem stateAfterBars_posInv (cfg : BacktestConfig) (strat : Strategy)
    (data : List Bar) (k : ℕ) :
    PosPos (stateAfterBars cfg strat data k).positions ∧
    OrdBuyPos (stateAfterBars cfg strat data k).orders := by
  induction k with
  | zero =>
      constructor
      · intro p hp
        simp [stateAfterBars_zero, initState] at hp
      · intro o ho
        simp [stateAfterBars_zero, initState] at ho
  | succ n ih =>
      rw [stateAfterBars_succ]
      exact processBar_posInv cfg strat data _ n ih.1 ih.2

theorem closeAllGo_posInv (cfg : BacktestConfig) (bar : Bar) (ts : ℕ) :
    ∀ (snap : List Position) (st : EngineState),
      PosPos st.positions → OrdBuyPos st.orders →
      PosPos (closeAllGo cfg bar ts st snap).positions
  | [], _ => fun h _ => h
  | p :: rest, st => by
      intro hpos hord
      simp only [closeAllGo]
      split
      · apply closeAllGo_posInv cfg bar ts rest
        · apply executeOrders_posPos
          · exact hpos
          · intro o ho hp hb
            rcases List.mem_append.1 ho with h | h
            · exact hord o h hp hb
            · rw [List.mem_singleton] at h
              subst h
              exact absurd hb (by simp)
        · exact executeOrders_ordBuyPos cfg bar _
      · exact closeAllGo_posInv cfg bar ts rest st hpos hord

theorem finalState_posPos (cfg : BacktestConfig) (strat : Strategy) (data : List Bar) :
    PosPos (finalState cfg strat data).positions := by
  unfold finalState
  cases hl : data.getLast? with
  | none => exact (stateAfterBars_posInv cfg strat data _).1
  | some lb =>
      exact closeAllGo_posInv cfg lb lb.name _ _
        (stateAfterBars_posInv cfg strat data _).1
        (stateAfterBars_posInv cfg strat data _).2

theorem equity_curve_length (cfg : BacktestConfig) (strat : Strategy) (data : List Bar) :
    ∀ k, k ≤ data.length →
      (stateAfterBars cfg strat data k).equity_curve.length = k + 1 := by
  intro k
  induction k with
  | zero => intro _; rfl
  | succ n ih =>
      intro hk
      obtain ⟨bar, hbar⟩ : ∃ bar, data[n]? = some bar :=
        ⟨data.get ⟨n, by omega⟩, List.getElem?_eq_getElem (by omega)⟩
      obtain ⟨os, _, heq⟩ := processBar_some cfg strat data
        (stateAfterBars cfg strat data n) n bar hbar
      rw [stateAfterBars_succ, heq]
      show ((stateAfterBars cfg strat data n).equity_curve ++
        [calculateEquity bar (stAfterExec cfg bar (stateAfterBars cfg strat data n))]).length
          = n + 1 + 1
      rw [List.length_append, ih (by omega)]
      rfl

/- ------------------------------------------------------------------ -/
/- Claim theorems.                                                     -/
/- ------------------------------------------------------------------ -/

/-- C10: `_execute_orders` applies no capital-sufficiency check to Buy
fills: capital is decremented by exactly `quantity * fill_price +
commission` regardless of the capital held, and in a concrete run
(`max_position_size = 1`, default 5 bps slippage and 0.1% commission,
a maximum-size buy signal) capital is negative after the fill. -/
theorem C10_buy_ignores_capital :
    (∀ (cfg : BacktestConfig) (barName : ℕ) (st : EngineState) (o : Order),
        o.side = OrderSide.buy → o.status = OrderStatus.pending →
        (executeOne cfg barName st o).1.capital =
          st.capital - (o.quantity * fillPrice cfg o +
            |o.quantity * fillPrice cfg o * cfg.commission_rate|)) ∧
    (stateAfterBars c10cfg c10strat c10data 2).capital < 0 := by
  constructor
  · intro cfg barName st o hside hst
    simp only [executeOne, hst, hside]
    cases hf : findPos st.positions o.symbol <;> simp [hf]
  · norm_num [stateAfterBars, processBar, initState, executeOrders, execOrdersGo,
      executeOne, processSignal, checkRiskManagement, calculateEquity,
      updatePositions, placeOrder, fillPrice, findPos, Bar.lookup, Bar.get,
      Bar.contains, c10cfg, c10strat, c10data, List.range_succ, List.find?,
      min_def, abs]

/-- C10 witness: the unconditional capital decrement, instantiated at a
pending 10-unit Buy against a fresh default-config engine. -/
theorem C10_buy_ignores_capital_witness :
    w10o.side = OrderSide.buy ∧ w10o.status = OrderStatus.pending ∧
    (executeOne c8cfg 3 (initState c8cfg) w10o).1.capital =
      (initState c8cfg).capital - (w10o.quantity * fillPrice c8cfg w10o +
        |w10o.quantity * fillPrice c8cfg w10o * c8cfg.commission_rate|) :=
  ⟨rfl, rfl, C10_buy_ignores_capital.1 c8cfg 3 (initState c8cfg) w10o rfl rfl⟩

/-- C8 counterexample: executing a pending Sell whose symbol has no open
position is not a complete no-op — `total_commission` and
`total_slippage` still change. -/
theorem C8_counterexample :
    findPos c8st.positions "X" = none ∧
    c8st.orders.map (fun o => (o.side, o.status)) =
      [(OrderSide.sell, OrderStatus.pending)] ∧
    (executeOrders c8cfg ⟨1, [("X", 100)]⟩ c8st).total_commission ≠
      c8st.total_commission ∧
    (executeOrders c8cfg ⟨1, [("X", 100)]⟩ c8st).total_slippage ≠
      c8st.total_slippage := by
  norm_num [c8st, c8cfg, initState, executeOrders, execOrdersGo, executeOne,
    placeOrder, fillPrice, findPos, Bar.lookup, Bar.get, Bar.contains,
    List.find?, min_def, abs]

/-- C8 amended: executing a pending Sell with no matching position leaves
capital, positions, trades and total_pnl unchanged, but the order is
marked Filled and its commission and slippage are still accumulated into
the run totals. -/
theorem C8_sell_no_position (cfg : BacktestConfig) (barName : ℕ)
    (st : EngineState) (o : Order)
    (hside : o.side = OrderSide.sell) (hst : o.status = OrderStatus.pending)
    (hnone : findPos st.positions o.symbol = none) :
    (executeOne cfg barName st o).1.capital = st.capital ∧
    (executeOne cfg barName st o).1.positions = st.positions ∧
    (executeOne cfg barName st o).1.trades = st.trades ∧
    (executeOne cfg barName st o).1.total_pnl = st.total_pnl ∧
    (executeOne cfg barName st o).1.total_commission =
      st.total_commission + |o.quantity * fillPrice cfg o * cfg.commission_rate| ∧
    (executeOne cfg barName st o).1.total_slippage =
      st.total_slippage + |fillPrice cfg o - o.price| * |o.quantity| ∧
    (executeOne cfg barName st o).2.status = OrderStatus.filled := by
  simp [executeOne, hst, hside, hnone]

/-- C8 witness: the amended no-op behaviour at a concrete Sell for a
symbol with no position. -/
theorem C8_sell_no_position_witness :
    w8o.side = OrderSide.sell ∧ w8o.status = OrderStatus.pending ∧
    findPos (initState c8cfg).positions w8o.symbol = none ∧
    ((executeOne c8cfg 1 (initState c8cfg) w8o).1.capital = (initState c8cfg).capital ∧
     (executeOne c8cfg 1 (initState c8cfg) w8o).1.positions = (initState c8cfg).positions ∧
     (executeOne c8cfg 1 (initState c8cfg) w8o).1.trades = (initState c8cfg).trades ∧
     (executeOne c8cfg 1 (initState c8cfg) w8o).1.total_pnl = (initState c8cfg).total_pnl ∧
     (executeOne c8cfg 1 (initState c8cfg) w8o).1.total_commission =
       (initState c8cfg).total_commission +
         |w8o.quantity * fillPrice c8cfg w8o * c8cfg.commission_rate| ∧
     (executeOne c8cfg 1 (initState c8cfg) w8o).1.total_slippage =
       (initState c8cfg).total_slippage + |fillPrice c8cfg w8o - w8o.price| * |w8o.quantity| ∧
     (executeOne c8cfg 1 (initState c8cfg) w8o).2.status = OrderStatus.filled) :=
  ⟨rfl, rfl, rfl, C8_sell_no_position c8cfg 1 (initState c8cfg) w8o rfl rfl rfl⟩

/-- C4: every stored position has strictly positive quantity at the end
of each bar of any run and in the final state; a Sell fill closes
min(requested, held) (recorded in the Trade), a position whose quantity
reaches zero is removed from the position map, and a Sell with no
matching position creates none (no shorts). -/
theorem C4_no_negative_positions :
    (∀ (cfg : BacktestConfig) (strat : Strategy) (data : List Bar) (k : ℕ),
       ∀ p ∈ (stateAfterBars cfg strat data k).positions, 0 < p.quantity) ∧
    (∀ (cfg : BacktestConfig) (strat : Strategy) (data : List Bar),
       ∀ p ∈ (finalState cfg strat data).positions, 0 < p.quantity) ∧
    (∀ (cfg : BacktestConfig) (barName : ℕ) (st : EngineState) (o : Order)
       (pos : Position),
       o.side = OrderSide.sell → o.status = OrderStatus.pending →
       findPos st.positions o.symbol = some pos →
       ((executeOne cfg barName st o).1.trades.getLast?.map Trade.quantity =
          some (min o.quantity pos.quantity)) ∧
       (pos.quantity ≤ o.quantity →
          findPos (executeOne cfg barName st o).1.positions o.symbol = none)) ∧
    (∀ (cfg : BacktestConfig) (barName : ℕ) (st : EngineState) (o : Order),
       o.side = OrderSide.sell → findPos st.positions o.symbol = none →
       (executeOne cfg barName st o).1.positions = st.positions) := by
  refine ⟨?_, ?_, ?_, ?_⟩
  · intro cfg strat data k
    exact (stateAfterBars_posInv cfg strat data k).1
  · intro cfg strat data
    exact finalState_posPos cfg strat data
  · intro cfg barName st o pos hside hst hf
    constructor
    · simp [executeOne, hst, hside, hf, List.getLast?_concat]
    · intro hle
      simp only [executeOne, hst, hside, hf]
      have hz : pos.quantity - min o.quantity pos.quantity ≤ 0 := by
        rw [min_eq_right hle]
        simp
      rw [if_pos hz]
      exact findPos_delPos _ _
  · intro cfg barName st o hside hf
    cases hst : o.status <;> simp [executeOne, hst, hside, hf]

/-- C4 witness: the run-level invariant at bar 2 of run A, and the
cap/removal behaviour of a concrete full-close Sell. -/
theorem C4_no_negative_positions_witness :
    (c4pos ∈ (stateAfterBars c1cfg c1strat c1data 3).positions) ∧
    (0 < c4pos.quantity) ∧
    w6o.side = OrderSide.sell ∧ w6o.status = OrderStatus.pending ∧
    findPos w6st.positions w6o.symbol = some w6pos ∧
    w6pos.quantity ≤ w6o.quantity ∧
    (((executeOne c8cfg 7 w6st w6o).1.trades.getLast?.map Trade.quantity =
        some (min w6o.quantity w6pos.quantity)) ∧
     (w6pos.quantity ≤ w6o.quantity →
        findPos (executeOne c8cfg 7 w6st w6o).1.positions w6o.symbol = none)) := by
  have hmem : c4pos ∈ (stateAfterBars c1cfg c1strat c1data 3).positions := by
    norm_num [stateAfterBars, processBar, initState, executeOrders, execOrdersGo,
      executeOne, processSignal, checkRiskManagement, calculateEquity,
      updatePositions, placeOrder, fillPrice, findPos, Bar.lookup, Bar.get,
      Bar.contains, c1cfg, c1strat, c1data, c4pos, List.range_succ, List.find?,
      min_def, abs]
  exact ⟨hmem, C4_no_negative_positions.1 c1cfg c1strat c1data 3 _ hmem,
    rfl, rfl, rfl, by norm_num [w6pos, w6o],
    C4_no_negative_positions.2.2.1 c8cfg 7 w6st w6o w6pos rfl rfl rfl⟩

/-- C5: two sequential Buy fills of q1 at fill price p1 and q2 at fill
price p2 on a symbol with no prior position leave a position with
entry_price = (q1*p1 + q2*p2)/(q1+q2) exactly, quantity = q1+q2, and
entry_timestamp equal to the first fill's timestamp. -/
theorem C5_cost_basis_weighting (cfg : BacktestConfig) (st : EngineState)
    (o1 o2 : Order) (t1 t2 : ℕ)
    (hs : o2.symbol = o1.symbol)
    (h1side : o1.side = OrderSide.buy) (h2side : o2.side = OrderSide.buy)
    (h1st : o1.status = OrderStatus.pending) (h2st : o2.status = OrderStatus.pending)
    (hnone : findPos st.positions o1.symbol = none)
    (h1q : 0 < o1.quantity) (h2q : 0 < o2.quantity) :
    ∃ pos,
      findPos (executeOne cfg t2 (executeOne cfg t1 st o1).1 o2).1.positions o1.symbol
        = some pos ∧
      pos.entry_price =
        (o1.quantity * fillPrice cfg o1 + o2.quantity * fillPrice cfg o2) /
          (o1.quantity + o2.quantity) ∧
      pos.quantity = o1.quantity + o2.quantity ∧
      pos.entry_timestamp = t1 := by
  obtain ⟨A, hA⟩ : ∃ A, (executeOne cfg t1 st o1).1 = A := ⟨_, rfl⟩
  have hfind1 : findPos A.positions o1.symbol =
      some ({ pid := st.nextPid, symbol := o1.symbol, quantity := o1.quantity,
              entry_price := fillPrice cfg o1, entry_timestamp := t1,
              current_price := fillPrice cfg o1, unrealized_pnl := 0 } : Position) := by
    have hpos1 : (executeOne cfg t1 st o1).1.positions =
        st.positions ++
          [({ pid := st.nextPid, symbol := o1.symbol, quantity := o1.quantity,
              entry_price := fillPrice cfg o1, entry_timestamp := t1,
              current_price := fillPrice cfg o1, unrealized_pnl := 0 } : Position)] := by
      simp [executeOne, h1st, h1side, hnone]
    rw [← hA, hpos1]
    exact findPos_append_self _ _ _ hnone rfl
  rw [hA]
  have hpos2 : (executeOne cfg t2 A o2).1.positions =
      setPos A.positions o1.symbol
        ({ pid := st.nextPid, symbol := o1.symbol,
           quantity := o1.quantity + o2.quantity,
           entry_price :=
             (fillPrice cfg o1 * o1.quantity + fillPrice cfg o2 * o2.quantity) /
               (o1.quantity + o2.quantity),
           entry_timestamp := t1,
           current_price := fillPrice cfg o1, unrealized_pnl := 0 } : Position) := by
    simp [executeOne, h2st, h2side, hs, hfind1]
  refine ⟨({ pid := st.nextPid, symbol := o1.symbol,
             quantity := o1.quantity + o2.quantity,
             entry_price :=
               (fillPrice cfg o1 * o1.quantity + fillPrice cfg o2 * o2.quantity) /
                 (o1.quantity + o2.quantity),
             entry_timestamp := t1,
             current_price := fillPrice cfg o1, unrealized_pnl := 0 } : Position),
          ?_, ?_, rfl, rfl⟩
  · rw [hpos2]
    exact findPos_setPos _ _ _ _ hfind1 rfl
  · show (fillPrice cfg o1 * o1.quantity + fillPrice cfg o2 * o2.quantity) /
        (o1.quantity + o2.quantity) =
      (o1.quantity * fillPrice cfg o1 + o2.quantity * fillPrice cfg o2) /
        (o1.quantity + o2.quantity)
    ring_nf

/-- C5 witness: two buys of 1@100 and 3@200 (with the default 5 bps
slippage on each fill) against a fresh engine. -/
theorem C5_cost_basis_weighting_witness :
    w5o2.symbol = w5o1.symbol ∧
    w5o1.side = OrderSide.buy ∧ w5o2.side = OrderSide.buy ∧
    w5o1.status = OrderStatus.pending ∧ w5o2.status = OrderStatus.pending ∧
    findPos (initState c8cfg).positions w5o1.symbol = none ∧
    0 < w5o1.quantity ∧ 0 < w5o2.quantity ∧
    (∃ pos,
      findPos (executeOne c8cfg 2 (executeOne c8cfg 1 (initState c8cfg) w5o1).1 w5o2).1.positions
          w5o1.symbol = some pos ∧
      pos.entry_price =
        (w5o1.quantity * fillPrice c8cfg w5o1 + w5o2.quantity * fillPrice c8cfg w5o2) /
          (w5o1.quantity + w5o2.quantity) ∧
      pos.quantity = w5o1.quantity + w5o2.quantity ∧
      pos.entry_timestamp = 1) :=
  ⟨rfl, rfl, rfl, rfl, rfl, rfl, by norm_num [w5o1], by norm_num [w5o2],
    C5_cost_basis_weighting c8cfg (initState c8cfg) w5o1 w5o2 1 2 rfl rfl rfl rfl rfl
      rfl (by norm_num [w5o1]) (by norm_num [w5o2])⟩

/-- C6: a Sell fill that fully closes a position records a Trade with
pnl = (fill − entry)·q − commission, return_pct = (fill/entry − 1)·100,
entry timestamp from the position, exit timestamp from the fill, and
credits capital with exactly q·fill − commission. -/
theorem C6_full_close_trade (cfg : BacktestConfig) (barName : ℕ)
    (st : EngineState) (o : Order) (pos : Position)
    (hside : o.side = OrderSide.sell) (hst : o.status = OrderStatus.pending)
    (hpos : findPos st.positions o.symbol = some pos)
    (hq : o.quantity = pos.quantity) :
    (executeOne cfg barName st o).1.trades = st.trades ++
      [({ symbol := o.symbol, side := OrderSide.sell, quantity := o.quantity,
          entry_price := pos.entry_price, exit_price := fillPrice cfg o,
          entry_timestamp := pos.entry_timestamp, exit_timestamp := barName,
          pnl := (fillPrice cfg o - pos.entry_price) * o.quantity -
            |o.quantity * fillPrice cfg o * cfg.commission_rate|,
          return_pct := (fillPrice cfg o / pos.entry_price - 1) * 100,
          holding_period := (barName : ℤ) - (pos.entry_timestamp : ℤ) } : Trade)] ∧
    (executeOne cfg barName st o).1.capital = st.capital +
      (o.quantity * fillPrice cfg o -
        |o.quantity * fillPrice cfg o * cfg.commission_rate|) := by
  constructor <;> simp [executeOne, hst, hside, hpos, hq, min_self]

/-- C6 witness: fully closing a 5-unit position entered at 100 with a
Sell at requested price 110 under the default configuration. -/
theorem C6_full_close_trade_witness :
    w6o.side = OrderSide.sell ∧ w6o.status = OrderStatus.pending ∧
    findPos w6st.positions w6o.symbol = some w6pos ∧
    w6o.quantity = w6pos.quantity ∧
    ((executeOne c8cfg 7 w6st w6o).1.trades = w6st.trades ++
      [({ symbol := w6o.symbol, side := OrderSide.sell, quantity := w6o.quantity,
          entry_price := w6pos.entry_price, exit_price := fillPrice c8cfg w6o,
          entry_timestamp := w6pos.entry_timestamp, exit_timestamp := 7,
          pnl := (fillPrice c8cfg w6o - w6pos.entry_price) * w6o.quantity -
            |w6o.quantity * fillPrice c8cfg w6o * c8cfg.commission_rate|,
          return_pct := (fillPrice c8cfg w6o / w6pos.entry_price - 1) * 100,
          holding_period := ((7 : ℕ) : ℤ) - (w6pos.entry_timestamp : ℤ) } : Trade)] ∧
     (executeOne c8cfg 7 w6st w6o).1.capital = w6st.capital +
       (w6o.quantity * fillPrice c8cfg w6o -
         |w6o.quantity * fillPrice c8cfg w6o * c8cfg.commission_rate|)) :=
  ⟨rfl, rfl, rfl, rfl, C6_full_close_trade c8cfg 7 w6st w6o w6pos rfl rfl rfl rfl⟩

/-- C9: a sell signal whose symbol has an open position but no price in
the current bar still queues a Sell order at the missing-price default 0;
executing any such zero-priced Sell against the position fills at price
0·(1−slippage) = 0, leaves capital exactly unchanged, and deletes the
position. -/
theorem C9_sell_signal_missing_price (cfg : BacktestConfig) (st : EngineState)
    (sig : Signal) (bar : Bar) (ts : ℕ) (pos : Position)
    (hact : sig.action = "sell")
    (hpos : findPos st.positions sig.symbol = some pos)
    (habs : bar.lookup sig.symbol = none)
    (hq : sig.quantity = none) (hqty : 0 < pos.quantity) :
    (processSignal cfg sig bar ts st).orders = st.orders ++
      [({ symbol := sig.symbol, side := OrderSide.sell, quantity := pos.quantity,
          price := 0, timestamp := ts } : Order)] ∧
    (∀ (cfg' : BacktestConfig) (barName : ℕ) (st' : EngineState)
        (pos' : Position) (o : Order),
        o.side = OrderSide.sell → o.status = OrderStatus.pending →
        o.price = 0 → o.quantity = pos'.quantity →
        findPos st'.positions o.symbol = some pos' →
        fillPrice cfg' o = 0 ∧
        (executeOne cfg' barName st' o).1.capital = st'.capital ∧
        findPos (executeOne cfg' barName st' o).1.positions o.symbol = none) := by
  constructor
  · simp [processSignal, hact, hpos, habs, hq, Bar.get, hqty, placeOrder]
  · intro cfg' barName st' pos' o hside' hst' hprice' hq' hpos'
    have hfp : fillPrice cfg' o = 0 := by
      cases hm : cfg'.use_market_orders <;>
        simp [fillPrice, hm, hside', hprice']
    refine ⟨hfp, ?_, ?_⟩
    · simp [executeOne, hst', hside', hpos', hfp, hq', min_self]
    · simp only [executeOne, hst', hside', hpos']
      simp [hq', min_self, findPos_delPos]

/-- C9 witness: selling a 7-unit "X" position on a bar that quotes only
"Y", then filling the queued zero-priced Sell. -/
theorem C9_sell_signal_missing_price_witness :
    w9sig.action = "sell" ∧
    findPos w9st.positions w9sig.symbol = some w9pos ∧
    w9bar.lookup w9sig.symbol = none ∧
    w9sig.quantity = none ∧ 0 < w9pos.quantity ∧
    ((processSignal c8cfg w9sig w9bar 5 w9st).orders = w9st.orders ++
      [({ symbol := w9sig.symbol, side := OrderSide.sell, quantity := w9pos.quantity,
          price := 0, timestamp := 5 } : Order)] ∧
     (∀ (cfg' : BacktestConfig) (barName : ℕ) (st' : EngineState)
         (pos' : Position) (o : Order),
         o.side = OrderSide.sell → o.status = OrderStatus.pending →
         o.price = 0 → o.quantity = pos'.quantity →
         findPos st'.positions o.symbol = some pos' →
         fillPrice cfg' o = 0 ∧
         (executeOne cfg' barName st' o).1.capital = st'.capital ∧
         findPos (executeOne cfg' barName st' o).1.positions o.symbol = none)) :=
  ⟨rfl, rfl, rfl, rfl, by norm_num [w9pos],
    C9_sell_signal_missing_price c8cfg w9st w9sig w9bar 5 w9pos rfl rfl rfl rfl
      (by norm_num [w9pos])⟩

/-- C2 amended: over bars with strictly increasing timestamps, every
order filled during the main loop fills strictly later than its
placement bar; orders flushed by the terminal close-all step — the
liquidation Sells and any orders still pending from the final bar — fill
at the final bar's timestamp (equal to their placement timestamp). -/
theorem C2_fill_timestamps (cfg : BacktestConfig) (strat : Strategy) (data : List Bar)
    (hmono : data.Pairwise (fun a b => a.name < b.name))
    (lastBar : Bar) (hlast : data.getLast? = some lastBar) :
    ∀ o ∈ (finalState cfg strat data).orders, o.status = OrderStatus.filled →
      ∃ t, o.fill_timestamp = some t ∧
        (o.timestamp < t ∨ (o.timestamp = t ∧ t = lastBar.name)) := by
  have hne : data ≠ [] := by
    rintro rfl
    simp at hlast
  obtain ⟨n, hn⟩ : ∃ n, data.length = n + 1 := by
    cases hd : data with
    | nil => exact absurd hd hne
    | cons a l => exact ⟨l.length, by simp [hd]⟩
  have hbar : data[n]? = some lastBar := by
    rw [List.getLast?_eq_getElem?] at hlast
    rw [← hlast, hn]
    rfl
  have hloop := loopInv_state cfg strat data hmono n lastBar hbar
  intro o ho hf
  have hoClose : o ∈ (closeAllPositions cfg lastBar lastBar.name
      (stateAfterBars cfg strat data (n + 1))).orders := by
    have : finalState cfg strat data = closeAllPositions cfg lastBar lastBar.name
        (stateAfterBars cfg strat data (n + 1)) := by
      unfold finalState
      rw [hlast, hn]
    rwa [this] at ho
  have hclose := closeAllGo_closeInv cfg lastBar
    (stateAfterBars cfg strat data (n + 1)).positions
    (stateAfterBars cfg strat data (n + 1))
    (closeInv_of_loopInv _ _ hloop)
  rcases hclose o hoClose with ⟨_, t, hft, hd⟩ | ⟨hp, _⟩
  · exact ⟨t, hft, hd⟩
  · rw [hf] at hp
    exact absurd hp (by simp)

/-- C2 witness: the amended timestamp property applied to run B at its
final bar. -/
theorem C2_fill_timestamps_witness :
    c2data.Pairwise (fun a b => a.name < b.name) ∧
    c2data.getLast? = some ⟨1, [("X", 100)]⟩ ∧
    (∀ o ∈ (finalState c2cfg c2strat c2data).orders,
      o.status = OrderStatus.filled →
      ∃ t, o.fill_timestamp = some t ∧
        (o.timestamp < t ∨ (o.timestamp = t ∧ t = Bar.name ⟨1, [("X", 100)]⟩))) :=
  ⟨by simp [c2data], rfl,
    C2_fill_timestamps c2cfg c2strat c2data (by simp [c2data]) ⟨1, [("X", 100)]⟩ rfl⟩

/-- C7: the code's Sharpe guard only covers an empty returns list.  A
backtest over a single bar with no signals yields equity curve
[100000, 100000], hence the single return sample 0 with variance 0; the
float expression `np.mean/np.std*sqrt(252)` is then 0/0 = NaN, not the 0
required by the claim (fewer than 2 samples, std = 0). -/
theorem C7_sharpe_zero_std_not_finite :
    (finalState c7cfg c7strat c7data).equity_curve = [100000, 100000] ∧
    barReturns (finalState c7cfg c7strat c7data).equity_curve = [0] ∧
    sharpeIsFinite (finalState c7cfg c7strat c7data).equity_curve = false := by
  norm_num [finalState, stateAfterBars, processBar, initState, closeAllPositions,
    closeAllGo, executeOrders, execOrdersGo, executeOne, processSignal,
    checkRiskManagement, calculateEquity, updatePositions, placeOrder, fillPrice,
    findPos, Bar.lookup, Bar.get, Bar.contains, c7cfg, c7strat, c7data,
    List.range_succ, List.find?, sharpeIsFinite, barReturns, npVar, npMean]

/-- C1 counterexample: in run A the buy fills on bar 2, whose price row
no longer quotes "X"; the recorded equity for that bar is 79980 (capital
only), while capital plus `quantity * current_price` over all open
positions is 99980.  Recorded equity omits positions absent from the
bar's price row. -/
theorem C1_counterexample :
    (stateAfterBars c1cfg c1strat c1data 3).capital = 79980 ∧
    ((stateAfterBars c1cfg c1strat c1data 3).positions.map
        (fun p => p.quantity * p.current_price)).sum = 20000 ∧
    (stateAfterBars c1cfg c1strat c1data 3).equity_curve[3]? = some 79980 ∧
    (stateAfterBars c1cfg c1strat c1data 3).equity_curve[3]? ≠
      some ((stateAfterBars c1cfg c1strat c1data 3).capital +
        ((stateAfterBars c1cfg c1strat c1data 3).positions.map
          (fun p => p.quantity * p.current_price)).sum) := by
  norm_num [stateAfterBars, processBar, initState, executeOrders, execOrdersGo,
    executeOne, processSignal, checkRiskManagement, calculateEquity,
    updatePositions, placeOrder, fillPrice, findPos, Bar.lookup, Bar.get,
    Bar.contains, c1cfg, c1strat, c1data, List.range_succ, List.find?,
    min_def, abs]

/-- C3 counterexample: in run A the order for "X" is still Pending after
bar 1; bar 2's price row does not contain "X", yet processing bar 2
executes the order (status Filled, filled at its requested price 100)
instead of leaving it Pending. -/
theorem C3_counterexample :
    Bar.contains ⟨2, []⟩ "X" = false ∧
    c1data[2]? = some ⟨2, []⟩ ∧
    (stateAfterBars c1cfg c1strat c1data 2).orders.map
      (fun o => (o.symbol, o.status)) = [("X", OrderStatus.pending)] ∧
    (stateAfterBars c1cfg c1strat c1data 3).orders.map
      (fun o => (o.symbol, o.status, o.fill_price)) =
      [("X", OrderStatus.filled, some 100)] := by
  norm_num [stateAfterBars, processBar, initState, executeOrders, execOrdersGo,
    executeOne, processSignal, checkRiskManagement, calculateEquity,
    updatePositions, placeOrder, fillPrice, fillOrder, findPos, Bar.lookup,
    Bar.get, Bar.contains, c1cfg, c1strat, c1data, List.range_succ,
    List.find?, min_def, abs]

/-- C1 amended: the equity recorded for bar k equals the capital held at
the end of bar k plus the sum of `quantity * bar price` over exactly
those open positions whose symbol appears in bar k's price row; positions
absent from the row contribute zero (and present positions are valued at
the bar price, not at their stored mark). -/
theorem C1_equity_present_positions (cfg : BacktestConfig) (strat : Strategy)
    (data : List Bar) (k : ℕ) (bar : Bar) (hbar : data[k]? = some bar) :
    (stateAfterBars cfg strat data (k + 1)).equity_curve[k + 1]? =
      some ((stateAfterBars cfg strat data (k + 1)).capital +
        ((stateAfterBars cfg strat data (k + 1)).positions.map
          (fun p =>
            match Bar.lookup bar p.symbol with
            | some price => p.quantity * price
            | none => 0)).sum) := by
  have hk : k < data.length := by
    by_contra h
    rw [List.getElem?_eq_none (le_of_not_lt h)] at hbar
    exact Option.noConfusion hbar
  have hlen : (stateAfterBars cfg strat data k).equity_curve.length = k + 1 :=
    equity_curve_length cfg strat data k (le_of_lt hk)
  obtain ⟨os, _, heq⟩ := processBar_some cfg strat data
    (stateAfterBars cfg strat data k) k bar hbar
  rw [stateAfterBars_succ, heq]
  show ((stateAfterBars cfg strat data k).equity_curve ++
      [calculateEquity bar (stAfterExec cfg bar (stateAfterBars cfg strat data k))])[k + 1]?
    = some ((stAfterExec cfg bar (stateAfterBars cfg strat data k)).capital +
        (((stAfterExec cfg bar (stateAfterBars cfg strat data k)).positions.map
          (fun p =>
            match Bar.lookup bar p.symbol with
            | some price => p.quantity * price
            | none => 0)).sum))
  rw [← hlen, List.getElem?_concat_length, calculateEquity_eq_sum]

/-- C1 witness: the amended equity identity at bar 2 of run A, where the
open position's symbol is absent from the bar and contributes zero. -/
theorem C1_equity_present_positions_witness :
    c1data[2]? = some ⟨2, []⟩ ∧
    (stateAfterBars c1cfg c1strat c1data 3).equity_curve[3]? =
      some ((stateAfterBars c1cfg c1strat c1data 3).capital +
        ((stateAfterBars c1cfg c1strat c1data 3).positions.map
          (fun p =>
            match Bar.lookup ⟨2, []⟩ p.symbol with
            | some price => p.quantity * price
            | none => 0)).sum) :=
  ⟨rfl, C1_equity_present_positions c1cfg c1strat c1data 2 ⟨2, []⟩ rfl⟩

/-- C3 amended: a symbol absent from the bar's price row is skipped by
marking (`_update_positions` leaves its position untouched) and by the
risk overlay (which emits orders only for symbols present in the bar),
but `_execute_orders` never consults the bar's prices: every pending
order — including one whose symbol is absent from the row — is filled at
its requested price (with slippage) rather than staying Pending. -/
theorem C3_missing_symbol_skips :
    (∀ (bar : Bar) (ps : List Position) (p : Position), p ∈ ps →
       bar.lookup p.symbol = none → p ∈ updatePositions bar ps) ∧
    (∀ (cfg : BacktestConfig) (bar : Bar) (st : EngineState) (o : Order),
       o ∈ (checkRiskManagement cfg bar st).orders →
       o ∈ st.orders ∨ bar.contains o.symbol = true) ∧
    (∀ (cfg : BacktestConfig) (bar : Bar) (st : EngineState),
       (executeOrders cfg bar st).orders = st.orders.map (fillOrder cfg bar.name)) ∧
    (∀ (cfg : BacktestConfig) (barName : ℕ) (o : Order),
       o.status = OrderStatus.pending →
       (fillOrder cfg barName o).status = OrderStatus.filled ∧
       (fillOrder cfg barName o).fill_price = some (fillPrice cfg o)) := by
  refine ⟨?_, ?_, ?_, ?_⟩
  · intro bar ps p hp hl
    unfold updatePositions
    exact List.mem_map.2 ⟨p, hp, by simp [hl]⟩
  · intro cfg bar st o ho
    obtain ⟨os, heq, hp⟩ := checkRisk_shape cfg bar st
    rw [heq] at ho
    rcases List.mem_append.1 ho with h | h
    · exact Or.inl h
    · exact Or.inr (hp o h).2.2.2.2
  · exact fun cfg bar st => executeOrders_orders cfg bar st
  · intro cfg barName o h
    rw [fillOrder_of_pending cfg barName o h]
    exact ⟨rfl, rfl⟩

/-- C3 witness: the amended behaviour at concrete inputs — a position
whose symbol is absent is not re-marked, the risk overlay emits nothing
new for it, and the pending order for it still fills. -/
theorem C3_missing_symbol_skips_witness :
    (c4pos ∈ [c4pos]) ∧ (Bar.lookup ⟨2, []⟩ c4pos.symbol = none) ∧
    (c4pos ∈ updatePositions ⟨2, []⟩ [c4pos]) ∧
    (w3o ∈ (checkRiskManagement c8cfg ⟨1, []⟩ c8st).orders) ∧
    (w3o ∈ c8st.orders ∨ Bar.contains ⟨1, []⟩ w3o.symbol = true) ∧
    ((executeOrders c8cfg ⟨1, []⟩ c8st).orders =
      c8st.orders.map (fillOrder c8cfg (Bar.name ⟨1, []⟩))) ∧
    (w3o.status = OrderStatus.pending) ∧
    ((fillOrder c8cfg 5 w3o).status = OrderStatus.filled ∧
     (fillOrder c8cfg 5 w3o).fill_price = some (fillPrice c8cfg w3o)) := by
  have hrisk : w3o ∈ (checkRiskManagement c8cfg ⟨1, []⟩ c8st).orders := by
    simp [checkRiskManagement, c8cfg, c8st, placeOrder, initState, w3o]
  refine ⟨by simp, rfl, ?_, hrisk, ?_, ?_, rfl, ?_⟩
  · exact C3_missing_symbol_skips.1 ⟨2, []⟩ [c4pos] c4pos (by simp) rfl
  · exact C3_missing_symbol_skips.2.1 c8cfg ⟨1, []⟩ c8st w3o hrisk
  · exact C3_missing_symbol_skips.2.2.1 c8cfg ⟨1, []⟩ c8st
  · exact C3_missing_symbol_skips.2.2.2 c8cfg 5 w3o rfl

/-- C2 counterexample: in run B (strictly increasing bar timestamps 0, 1)
the signal interpreter queues a Buy during the final bar (timestamp 1);
the terminal close-all step then flushes all pending orders, so that Buy
— which is not an end-of-run liquidation order — fills at timestamp 1,
the same timestamp as its placement bar, not strictly later. -/
theorem C2_counterexample :
    c2data.Pairwise (fun a b => a.name < b.name) ∧
    (finalState c2cfg c2strat c2data).orders.map
      (fun o => (o.side, o.timestamp, o.fill_timestamp)) =
      [(OrderSide.buy, 0, some 1), (OrderSide.buy, 1, some 1),
       (OrderSide.sell, 1, some 1)] := by
  norm_num [finalState, stateAfterBars, processBar, initState, closeAllPositions,
    closeAllGo, executeOrders, execOrdersGo, executeOne, processSignal,
    checkRiskManagement, calculateEquity, updatePositions, placeOrder,
    fillPrice, findPos, Bar.lookup, Bar.get, Bar.contains, c2cfg, c2strat,
    c2data, List.range_succ, List.find?, min_def, abs]

end NoderrBacktest
